import Mathlib

/-!
Shallow embedding of the rhex viewport/navigation engine and search
subsystem, translated from the Rust sources:

* `src/gui/hex/hex_grid.rs` : the hex pane `HexGrid` (cursor, scroll,
  line-wrapping arithmetic, `move_cursor_offset`, key handling, and the
  highlight decision made for each cell during `draw`);
* `src/gui/hex/search.rs`   : the `SearchOverlay` state machine
  (dual ASCII/hex pattern entry) and the linear non-overlapping scan
  `find_offsets` / `try_match`;
* `src/gui/hex/goto.rs`     : the `GotoOverlay` digit-input state machine;
* `src/gui/hex/mod.rs`      : the repeat-search branches of
  `HexGui::keypressed_no_overlay` for keys n and N.

Machine integers are modelled with `Int` and `Nat`.  Rust `i32` / `usize`
arithmetic that can wrap or underflow is made explicit (`usize_as_i32`,
`len_pred_as_i32`, `checked_pred`); Rust integer division and remainder
truncate toward zero, which is `Int.tdiv` / `Int.tmod`.  Fallible code
(slice indexing, `unwrap`) is modelled with `Option`, `none` marking a
panic.
-/

/-- Interpretation of the low 32 bits of a nonnegative machine integer as a
two-complement signed 32-bit value, as the Rust cast `as i32` does. -/
def usize_as_i32 (n : Nat) : Int :=
  let m : Nat := n % 2 ^ 32
  if m < 2 ^ 31 then (m : Int) else (m : Int) - 2 ^ 32

/-- Model of the Rust expression `(len - 1) as i32` for `len : usize` under
release (wrapping) semantics: the subtraction wraps modulo 2^64 and the
result is truncated to 32 bits.  For `len == 0` this yields `-1`; with debug
assertions the subtraction would instead panic. -/
def len_pred_as_i32 (len : Nat) : Int :=
  usize_as_i32 ((len + (2 ^ 64 - 1)) % 2 ^ 64)

/-- Model of a Rust `usize` subtraction `n - 1` under checked (debug)
semantics: `none` is the underflow panic. -/
def checked_pred (n : Nat) : Option Nat :=
  if n = 0 then none else some (n - 1)

/-- State of `HexGrid` (file `hex_grid.rs`): pane size, the immutable byte
buffer, and the cursor/scroll state.  The drawing positions `pos_x`/`pos_y`
and the back pointer to the GUI are omitted, as is the path string. -/
structure HexGrid where
  width : Int
  height : Int
  data : List Nat
  cursor_x : Int
  cursor_y : Int
  scroll : Int
deriving DecidableEq

namespace HexGrid

/-- Translation of `HexGrid::bytes_per_line`. -/
def bytes_per_line (g : HexGrid) : Int :=
  let bytes := Int.tdiv g.width 3
  if Int.tmod g.width 3 = 2 then bytes + 1 else bytes

/-- Translation of `HexGrid::cols_per_line`. -/
def cols_per_line (g : HexGrid) : Int :=
  g.bytes_per_line * 3 - 1

/-- Translation of `HexGrid::total_lines_needed`; `len` is
`self.data.len() as i32`. -/
def total_lines_needed (g : HexGrid) : Int :=
  let len := usize_as_i32 g.data.length
  let bpl := g.bytes_per_line
  Int.tdiv (len + bpl - 1) bpl

/-- Translation of `HexGrid::last_line_bytes`: the Rust source computes
`(self.data.len() % self.bytes_per_line() as usize) as i32`. -/
def last_line_bytes (g : HexGrid) : Int :=
  usize_as_i32 (g.data.length % (g.bytes_per_line).toNat)

/-- Translation of `HexGrid::move_next_line`. -/
def move_next_line (g : HexGrid) : HexGrid :=
  let max_y := g.total_lines_needed - 1
  let g1 :=
    if g.cursor_y + 1 = max_y then
      let last_line_cols := (g.last_line_bytes - 1) * 3 + 2
      if g.cursor_x ≥ last_line_cols then { g with cursor_x := last_line_cols - 1 } else g
    else g
  { g1 with cursor_y := g1.cursor_y + 1 }

/-- Translation of `HexGrid::get_byte_idx`. -/
def get_byte_idx (g : HexGrid) : Int :=
  g.cursor_y * g.bytes_per_line + Int.tdiv g.cursor_x 3

/-- Translation of `HexGrid::try_center_scroll`. -/
def try_center_scroll (g : HexGrid) : HexGrid :=
  if g.cursor_y - Int.tdiv g.height 2 ≥ 0 then
    { g with scroll := g.cursor_y - Int.tdiv g.height 2 }
  else g

/-- Translation of `HexGrid::move_cursor_offset`.  The first line of the
source is `cmp::min((self.data.len() - 1) as i32, byte_idx)`, whose usize
subtraction is modelled by `len_pred_as_i32` (release semantics; in a debug
build an empty buffer panics here instead).  The companion-view
notifications at the end touch no `HexGrid` state and are omitted. -/
def move_cursor_offset (g : HexGrid) (byte_idx : Int) : HexGrid :=
  let byte_idx := min (len_pred_as_i32 g.data.length) byte_idx
  let bpl := g.bytes_per_line
  let cy := Int.tdiv byte_idx bpl
  let cx := Int.tmod byte_idx bpl * 3
  let min_scroll := max 0 (cy - g.height + 3)
  let max_scroll := max 0 (cy - 3)
  let scroll' :=
    if g.scroll > max_scroll then max_scroll
    else if g.scroll < min_scroll then min_scroll
    else g.scroll
  { g with cursor_y := cy, cursor_x := cx, scroll := scroll' }

/-- Keys recognised by `HexGrid::keypressed`, one constructor per match arm
(arrow keys and their vi synonyms share an arm in the source). -/
inductive HKey where
  | up
  | down
  | left
  | right
  | goEnd
  | ctrlD
  | ctrlU
  | other
deriving DecidableEq

/-- Translation of `HexGrid::keypressed`.  The boolean is the handled flag
returned by the source; companion-view update calls are omitted. -/
def keypressed (g : HexGrid) (k : HKey) : HexGrid × Bool :=
  match k with
  | .up =>
      let g' :=
        if g.cursor_y > g.scroll + 2 ∧ g.cursor_y > 0 then
          { g with cursor_y := g.cursor_y - 1 }
        else if g.scroll > 0 then
          { g with scroll := g.scroll - 1, cursor_y := g.cursor_y - 1 }
        else if g.cursor_y - 1 ≥ 0 then
          { g with cursor_y := g.cursor_y - 1 }
        else g
      (g', true)
  | .down =>
      let max_y := g.total_lines_needed - 1
      let g' :=
        if g.cursor_y < g.scroll + g.height - 3 ∧ g.cursor_y < max_y then
          g.move_next_line
        else if g.cursor_y < max_y then
          if g.scroll + g.height ≤ max_y then
            { g with scroll := g.scroll + 1, cursor_y := g.cursor_y + 1 }
          else
            g.move_next_line
        else g
      (g', true)
  | .left =>
      let g' :=
        if g.cursor_x > 0 then
          let x1 := g.cursor_x - 1
          if Int.tmod (x1 + 1) 3 = 0 then { g with cursor_x := x1 - 1 }
          else { g with cursor_x := x1 }
        else g
      (g', true)
  | .right =>
      let next_on_blank := Int.tmod (g.cursor_x + 1 + 1) 3 = 0
      let total_lines := g.total_lines_needed
      let last_col_in_line :=
        if g.cursor_y + 1 = total_lines then (g.last_line_bytes - 1) * 3 + 2
        else g.cols_per_line
      let potential_next_col :=
        if next_on_blank then g.cursor_x + 2 else g.cursor_x + 1
      let g' :=
        if potential_next_col ≤ last_col_in_line then
          { g with cursor_x := potential_next_col }
        else g
      (g', true)
  | .goEnd =>
      (g.move_cursor_offset (usize_as_i32 g.data.length - 1), true)
  | .ctrlD =>
      let current_cursor := g.get_byte_idx
      let bpl := g.bytes_per_line
      let new_cursor := current_cursor + 10 * bpl
      let new_cursor :=
        if new_cursor > usize_as_i32 g.data.length - 1 then
          usize_as_i32 g.data.length - 1
        else new_cursor
      (g.move_cursor_offset new_cursor, true)
  | .ctrlU =>
      let current_cursor := g.get_byte_idx
      let bpl := g.bytes_per_line
      let new_cursor := current_cursor - 10 * bpl
      let new_cursor := if new_cursor < 0 then 0 else new_cursor
      (g.move_cursor_offset new_cursor, true)
  | .other => (g, false)

end HexGrid

/-- Translation of the free function `try_match` in `search.rs`: the second
slice may be no longer than the first, and the zipped prefixes must agree
byte for byte. -/
def try_match (s1 s2 : List Nat) : Bool :=
  if s2.length > s1.length then false
  else (s1.zip s2).all fun p => p.1 == p.2

/-- Translation of the scan loop of `SearchOverlay::find_offsets` for a
pattern with first byte `p` and tail `ps`, scanning from `off`.  On a full
match the start offset is recorded and the scan position advances by the
pattern length `ps.length + 1`; otherwise it advances by 1. -/
def find_offsets_aux (contents : List Nat) (p : Nat) (ps : List Nat) (off : Nat) :
    List Nat :=
  if h : off < contents.length then
    if contents.get ⟨off, h⟩ == p ∧ try_match (contents.drop (off + 1)) ps then
      off :: find_offsets_aux contents p ps (off + (ps.length + 1))
    else
      find_offsets_aux contents p ps (off + 1)
  else []
termination_by contents.length - off

/-- Translation of `SearchOverlay::find_offsets`.  The source reads
`self.buffer[0]` before the loop, which panics on an empty pattern, hence
the `none` case; the call site guards with `!self.buffer.is_empty()`. -/
def find_offsets (contents pattern : List Nat) : Option (List Nat) :=
  match pattern with
  | [] => none
  | p :: ps => some (find_offsets_aux contents p ps 0)

/-- The `SearchMode` enumeration of `search.rs`. -/
inductive SearchMode where
  | ascii
  | hex
deriving DecidableEq

/-- The `NibbleCursor` enumeration of `search.rs` (`MS` more significant,
`LS` less significant). -/
inductive NibbleCursor where
  | ms
  | ls
deriving DecidableEq

/-- State of `SearchOverlay` (file `search.rs`): entry mode, the pattern
being built, the byte and nibble cursors, and the scanned buffer.  Drawing
positions and sizes are omitted. -/
structure SearchOverlay where
  mode : SearchMode
  buffer : List Nat
  byte_cursor : Nat
  nibble_cursor : NibbleCursor
  contents : List Nat
deriving DecidableEq

/-- The `SearchRet` enumeration of `search.rs`. -/
inductive SearchRet where
  | highlight (focus : Nat) (all_bytes : List Nat) (len : Nat)
  | abort
  | cont
deriving DecidableEq

/-- Keys relevant to the overlays: escape, enter (`Char` 13 in the source
arrives as its own match arm `Char of backslash-r`), tab, backspace, an
arbitrary character, or anything else. -/
inductive OKey where
  | esc
  | enter
  | tab
  | backspace
  | char (c : Nat)
  | other
deriving DecidableEq

/-- Translation of the hex-digit decoding in the `SearchMode::Hex` character
arm of `SearchOverlay::keypressed` (ranges A-F, a-f, 0-9). -/
def hex_digit_val (c : Nat) : Option Nat :=
  if 65 ≤ c ∧ c ≤ 70 then some (c - 65 + 10)
  else if 97 ≤ c ∧ c ≤ 102 then some (c - 97 + 10)
  else if 48 ≤ c ∧ c ≤ 57 then some (c - 48)
  else none

/-- Translation of `SearchOverlay::keypressed`.  `none` marks a panic: the
hex Backspace arm for the less-significant nibble indexes
`self.buffer[self.byte_cursor]` without a bounds check.  `Vec::pop` is
modelled by `getLast?` / `dropLast`. -/
def search_keypressed (s : SearchOverlay) (k : OKey) :
    Option (SearchOverlay × SearchRet) :=
  match k with
  | .esc => some (s, .abort)
  | .enter =>
      match s.buffer with
      | [] => some (s, .cont)
      | p :: ps =>
          some (s, .highlight s.byte_cursor (find_offsets_aux s.contents p ps 0)
            s.buffer.length)
  | .tab =>
      let new_sm := match s.mode with | .ascii => SearchMode.hex | .hex => SearchMode.ascii
      some ({ s with mode := new_sm }, .cont)
  | .backspace =>
      match s.mode with
      | .ascii =>
          match s.buffer.getLast? with
          | none => some (s, .cont)
          | some _ =>
              let bc := if s.byte_cursor ≠ 0 then s.byte_cursor - 1 else s.byte_cursor
              some ({ s with buffer := s.buffer.dropLast, byte_cursor := bc }, .cont)
      | .hex =>
          match s.nibble_cursor with
          | .ls =>
              match s.buffer.get? s.byte_cursor with
              | none => none
              | some byte =>
                  let buf := s.buffer.set s.byte_cursor (Nat.land byte 0xF0)
                  some ({ s with buffer := buf, nibble_cursor := .ms }, .cont)
          | .ms =>
              if s.byte_cursor ≥ s.buffer.length ∧ s.byte_cursor ≠ 0 then
                some ({ s with byte_cursor := s.byte_cursor - 1, nibble_cursor := .ls },
                  .cont)
              else
                match s.buffer.getLast? with
                | none => some ({ s with nibble_cursor := .ms }, .cont)
                | some _ =>
                    if s.byte_cursor ≠ 0 then
                      let s' := { s with
                                  buffer := s.buffer.dropLast,
                                  byte_cursor := s.byte_cursor - 1,
                                  nibble_cursor := NibbleCursor.ls }
                      some (s', .cont)
                    else
                      let s' := { s with
                                  buffer := s.buffer.dropLast,
                                  nibble_cursor := NibbleCursor.ms }
                      some (s', .cont)
  | .char c =>
      match s.mode with
      | .ascii =>
          if c ≤ 0xFF then
            let s' := { s with
                        buffer := s.buffer ++ [c],
                        byte_cursor := s.byte_cursor + 1,
                        nibble_cursor := NibbleCursor.ms }
            some (s', .cont)
          else some (s, .cont)
      | .hex =>
          match hex_digit_val c with
          | none => some (s, .cont)
          | some nibble =>
              let current_byte :=
                if s.byte_cursor ≥ s.buffer.length then 0
                else s.buffer.getD s.byte_cursor 0
              let new_byte :=
                match s.nibble_cursor with
                | .ms => Nat.lor (Nat.land current_byte 0x0F) (Nat.shiftLeft nibble 4)
                | .ls => Nat.lor (Nat.land current_byte 0xF0) nibble
              if s.byte_cursor ≥ s.buffer.length then
                let s' := { s with
                            buffer := s.buffer ++ [new_byte],
                            nibble_cursor := NibbleCursor.ls }
                some (s', .cont)
              else
                match s.nibble_cursor with
                | .ms =>
                    let s' := { s with
                                buffer := s.buffer.set s.byte_cursor new_byte,
                                nibble_cursor := NibbleCursor.ls }
                    some (s', .cont)
                | .ls =>
                    let s' := { s with
                                buffer := s.buffer.set s.byte_cursor new_byte,
                                nibble_cursor := NibbleCursor.ms,
                                byte_cursor := s.byte_cursor + 1 }
                    some (s', .cont)
  | .other => some (s, .cont)

/-- The state `SearchOverlay::new` starts in: ASCII mode, empty pattern,
cursors at zero. -/
def search_init (contents : List Nat) : SearchOverlay :=
  { mode := .ascii, buffer := [], byte_cursor := 0, nibble_cursor := .ms,
    contents := contents }

/-- Feeding a key sequence through `search_keypressed`, threading the state
and propagating a panic. -/
def search_run (s : SearchOverlay) : List OKey → Option SearchOverlay
  | [] => some s
  | k :: ks =>
      match search_keypressed s k with
      | none => none
      | some (s', _) => search_run s' ks

/-- The `OverlayRet` enumeration of `goto.rs`. -/
inductive OverlayRet where
  | ret (offset : Int)
  | gotoBeginning
  | abort
  | cont
deriving DecidableEq

/-- Model of the standard library parse used by `GotoOverlay::keypressed`
(`self.input.parse::<i32>()`), restricted to the digit-only strings the
overlay can hold: an empty or non-digit string is an error, and a value
above `i32::MAX` overflows to an error.  Negative inputs cannot arise
because the overlay never stores a sign character. -/
def parse_i32 (input : List Nat) : Option Int :=
  if input = [] then none
  else if ¬ (input.all fun c => 48 ≤ c && c ≤ 57) then none
  else
    let v : Nat := input.foldl (fun acc c => acc * 10 + (c - 48)) 0
    if v ≤ 2147483647 then some (v : Int) else none

/-- Translation of `GotoOverlay::keypressed`; the state is the `input`
string, kept as the list of its character codes.  `none` models the
`unwrap` panic when the decimal parse of the entered digits overflows
`i32`.  The guard order follows the source match arms: a digit character is
appended, then `Char` g, `Esc`, `Backspace`, `Char` 13 (enter) and the
catch-all are tried. -/
def goto_keypressed (input : List Nat) (k : OKey) : Option (List Nat × OverlayRet) :=
  match k with
  | .esc => some (input, .abort)
  | .backspace => some (input.dropLast, .cont)
  | .enter =>
      if input = [] then some (input, .abort)
      else
        match parse_i32 input with
        | some v => some (input, .ret v)
        | none => none
  | .char c =>
      if 48 ≤ c ∧ c ≤ 57 then some (input ++ [c], .cont)
      else if c = 103 then some (input, .gotoBeginning)
      else some (input, .cont)
  | .tab => some (input, .cont)
  | .other => some (input, .cont)

/-- Feeding a key sequence through `goto_keypressed`, threading the input
buffer and propagating a panic; the returned value of the last key is
reported. -/
def goto_run (input : List Nat) : List OKey → Option (List Nat × OverlayRet)
  | [] => some (input, .cont)
  | k :: ks =>
      match goto_keypressed input k with
      | none => none
      | some (input', r) =>
          match ks with
          | [] => some (input', r)
          | _ :: _ => goto_run input' ks

/-- Translation of the repeat-search branch for key n in
`HexGui::keypressed_no_overlay`: walk the ascending highlight list and jump
to the first offset strictly greater than the current byte index, falling
back to the first entry; `none` means no jump happens. -/
def repeat_next (hls : List Nat) (byte_idx : Nat) : Option Nat :=
  match hls.find? fun o => decide (o > byte_idx) with
  | some o => some o
  | none => hls.get? 0

/-- Translation of the repeat-search branch for key N in
`HexGui::keypressed_no_overlay`: walk the highlight list in reverse and jump
to the first offset strictly less than the current byte index, falling back
to `hls.get(hls.len() - 1)`.  The outer `Option` models the checked
`usize` subtraction `hls.len() - 1`, which underflows (a debug panic) when
the list is empty; the inner `Option` is the jump target, `none` meaning no
jump. -/
def repeat_prev (hls : List Nat) (byte_idx : Nat) : Option (Option Nat) :=
  match hls.reverse.find? fun o => decide (o < byte_idx) with
  | some o => some (some o)
  | none =>
      match checked_pred hls.length with
      | none => none
      | some i => some (hls.get? i)

/-- Translation of the advancing while loop in `HexGrid::draw`:
`while hl_idx < hl.len() && hl[hl_idx] + hl_len < byte_idx` increments
`hl_idx`. -/
def advance_hl (hl : List Nat) (hl_len byte_idx : Nat) (hl_idx : Nat) : Nat :=
  if h : hl_idx < hl.length then
    if hl.get ⟨hl_idx, h⟩ + hl_len < byte_idx then
      advance_hl hl hl_len byte_idx (hl_idx + 1)
    else hl_idx
  else hl_idx
termination_by hl.length - hl_idx

/-- Translation of the per-cell highlight decision in `HexGrid::draw`: with
the sweep cursor at `hl_idx`, the cell at `byte_idx` is drawn highlighted
exactly when `hl.get(hl_idx)` is some offset `o` with
`byte_idx >= o && byte_idx < o + hl_len`. -/
def cell_highlight (hl : List Nat) (hl_len : Nat) (hl_idx : Nat) (byte_idx : Nat) : Bool :=
  match hl.get? hl_idx with
  | some o => decide (byte_idx ≥ o ∧ byte_idx < o + hl_len)
  | none => false

/-- The highlight sweep of `HexGrid::draw` over `count` consecutive cells
starting at byte index `b`, with the sweep cursor starting at `hl_idx`.
The render pass visits cells at `byte_idx = row * cols + col` in row-major
order, so the visited byte indices are exactly consecutive integers
starting at `scroll * cols`; each cell is first tested with the current
cursor (`cell_highlight`) and the cursor is advanced afterwards
(`advance_hl`), exactly as the loop body orders the two steps. -/
def draw_sweep (hl : List Nat) (hl_len : Nat) (hl_idx : Nat) (b : Nat) :
    Nat → List Bool
  | 0 => []
  | count + 1 =>
      cell_highlight hl hl_len hl_idx b ::
        draw_sweep hl hl_len (advance_hl hl hl_len b hl_idx) (b + 1) count

theorem try_match_cons (a b : Nat) (as bs : List Nat) :
    try_match (a :: as) (b :: bs) = (a == b && try_match as bs) := by
  by_cases h : bs.length > as.length
  · simp [try_match, h, Nat.succ_lt_succ_iff]
  · simp [try_match, h, Nat.succ_lt_succ_iff]

theorem try_match_iff (s2 s1 : List Nat) :
    try_match s1 s2 = true ↔ s1.take s2.length = s2 := by
  induction s2 generalizing s1 with
  | nil => simp [try_match]
  | cons b bs ih =>
      cases s1 with
      | nil => simp [try_match]
      | cons a as => simp [try_match_cons, ih, List.take_succ_cons]

theorem find_offsets_aux_sound (contents : List Nat) (p : Nat) (ps : List Nat)
    (off : Nat) :
    (∀ m ∈ find_offsets_aux contents p ps off,
      off ≤ m ∧ (contents.drop m).take (ps.length + 1) = p :: ps) ∧
    List.Chain' (fun a b => a + (ps.length + 1) ≤ b)
      (find_offsets_aux contents p ps off) := by
  induction off using find_offsets_aux.induct contents p ps with
  | case1 x h hmatch ih =>
      obtain ⟨hp, htm⟩ := hmatch
      rw [find_offsets_aux, dif_pos h, if_pos ⟨hp, htm⟩]
      constructor
      · intro m hm
        rcases List.mem_cons.mp hm with rfl | hm
        · refine ⟨le_refl _, ?_⟩
          have hdrop : contents.drop m = contents.get ⟨m, h⟩ :: contents.drop (m + 1) :=
            List.drop_eq_getElem_cons h
          rw [hdrop, List.take_succ_cons, beq_iff_eq.mp hp,
            (try_match_iff ps (contents.drop (m + 1))).mp htm]
        · have := (ih.1 m hm)
          exact ⟨le_trans (Nat.le_add_right _ _) this.1, this.2⟩
      · refine List.Chain'.cons' ih.2 ?_
        intro y hy
        have hmem : y ∈ find_offsets_aux contents p ps (x + (ps.length + 1)) :=
          List.mem_of_mem_head? hy
        exact (ih.1 y hmem).1
  | case2 x h hnomatch ih =>
      rw [find_offsets_aux, dif_pos h, if_neg hnomatch]
      refine ⟨fun m hm => ?_, ih.2⟩
      have := ih.1 m hm
      exact ⟨le_trans (Nat.le_succ x) this.1, this.2⟩
  | case3 x h =>
      rw [find_offsets_aux, dif_neg h]
      simp

/-- Claim C2: for every buffer and every non-empty pattern, the scan starts
at offset 0 (`find_offsets` returns the list the loop computes from offset
0), consecutive reported matches satisfy
`matches[i] + pattern.len() <= matches[i+1]` (hence the list is strictly
ascending and no two matches overlap), and every reported offset `m`
satisfies `buffer[m .. m + pattern.len()] == pattern`. -/
theorem c2_search_scan (contents : List Nat) (p : Nat) (ps : List Nat) :
    find_offsets contents (p :: ps) = some (find_offsets_aux contents p ps 0) ∧
    List.Chain' (fun a b => a + (p :: ps).length ≤ b)
      (find_offsets_aux contents p ps 0) ∧
    List.Chain' (· < ·) (find_offsets_aux contents p ps 0) ∧
    ∀ m ∈ find_offsets_aux contents p ps 0,
      (contents.drop m).take (p :: ps).length = p :: ps := by
  have h := find_offsets_aux_sound contents p ps 0
  refine ⟨rfl, ?_, ?_, ?_⟩
  · simpa using h.2
  · exact h.2.imp fun a b hab => by omega
  · intro m hm
    simpa using (h.1 m hm).2

/-- Sweep-cursor invariant before the cell at byte index `c` is tested:
every list entry strictly before `idx` ends more than one cell before `c`,
and the entry at `idx`, if any, does not. -/
def sweep_good (hl : List Nat) (len c idx : Nat) : Prop :=
  (∀ i < idx, ∀ o, hl.get? i = some o → o + len < c) ∧
  (∀ o, hl.get? idx = some o → c ≤ o + len + 1)

theorem advance_hl_good (hl : List Nat) (len c idx : Nat)
    (h1 : ∀ i < idx, ∀ o, hl.get? i = some o → o + len < c) :
    sweep_good hl len (c + 1) (advance_hl hl len c idx) := by
  induction idx using advance_hl.induct hl len c with
  | case1 x hx hlt ih =>
      rw [advance_hl, dif_pos hx, if_pos hlt]
      apply ih
      intro i hi o ho
      rcases Nat.lt_succ_iff_lt_or_eq.mp hi with hi | rfl
      · exact h1 i hi o ho
      · rw [List.get?_eq_get hx] at ho
        injection ho with ho
        omega
  | case2 x hx hge =>
      rw [advance_hl, dif_pos hx, if_neg hge]
      refine ⟨fun i hi o ho => Nat.lt_succ_of_lt (h1 i hi o ho), fun o ho => ?_⟩
      rw [List.get?_eq_get hx] at ho
      injection ho with ho
      omega
  | case3 x hx =>
      rw [advance_hl, dif_neg hx]
      refine ⟨fun i hi o ho => Nat.lt_succ_of_lt (h1 i hi o ho), fun o ho => ?_⟩
      rw [List.get?_eq_none.mpr (le_of_not_lt hx)] at ho
      exact absurd ho (by simp)

theorem cell_highlight_iff (hl : List Nat) (len c idx : Nat)
    (hgap : List.Pairwise (fun a b => a + len + 2 ≤ b) hl)
    (hgood : sweep_good hl len c idx) :
    cell_highlight hl len idx c = true ↔ ∃ m ∈ hl, m ≤ c ∧ c < m + len := by
  constructor
  · intro h
    unfold cell_highlight at h
    cases hget : hl.get? idx with
    | none => rw [hget] at h; exact absurd h (by simp)
    | some o =>
        rw [hget] at h
        have := of_decide_eq_true h
        exact ⟨o, List.get?_mem hget, this.1, this.2⟩
  · rintro ⟨m, hm, hle, hlt⟩
    obtain ⟨⟨j, hj⟩, rfl⟩ := List.mem_iff_get.mp hm
    have hne : ¬ j < idx := by
      intro hji
      have := hgood.1 j hji _ (List.get?_eq_get hj)
      omega
    have hne2 : ¬ idx < j := by
      intro hij
      have hilen : idx < hl.length := lt_trans hij hj
      have h2 := hgood.2 _ (List.get?_eq_get hilen)
      have hpw := List.pairwise_iff_get.mp hgap ⟨idx, hilen⟩ ⟨j, hj⟩ hij
      omega
    have : idx = j := by omega
    subst this
    unfold cell_highlight
    rw [List.get?_eq_get hj]
    exact decide_eq_true ⟨hle, hlt⟩

theorem draw_sweep_sound (hl : List Nat) (len : Nat) :
    ∀ K idx c i, (draw_sweep hl len idx c K).get? i = some true →
      ∃ m ∈ hl, m ≤ c + i ∧ c + i < m + len := by
  intro K
  induction K with
  | zero => intro idx c i h; simp [draw_sweep] at h
  | succ K ih =>
      intro idx c i h
      rw [draw_sweep] at h
      cases i with
      | zero =>
          rw [List.get?_cons_zero] at h
          injection h with h
          unfold cell_highlight at h
          cases hget : hl.get? idx with
          | none => rw [hget] at h; exact absurd h (by simp)
          | some o =>
              rw [hget] at h
              have := of_decide_eq_true h
              exact ⟨o, List.get?_mem hget, by omega, by omega⟩
      | succ i =>
          rw [List.get?_cons_succ] at h
          obtain ⟨m, hm, h1, h2⟩ := ih _ _ _ h
          exact ⟨m, hm, by omega, by omega⟩

theorem draw_sweep_complete (hl : List Nat) (len : Nat)
    (hgap : List.Pairwise (fun a b => a + len + 2 ≤ b) hl) :
    ∀ K c idx, sweep_good hl len c idx →
      ∀ i < K, ((draw_sweep hl len idx c K).get? i = some true ↔
        ∃ m ∈ hl, m ≤ c + i ∧ c + i < m + len) := by
  intro K
  induction K with
  | zero => intro c idx _ i hi; omega
  | succ K ih =>
      intro c idx hgood i hi
      rw [draw_sweep]
      cases i with
      | zero =>
          rw [List.get?_cons_zero, Nat.add_zero]
          constructor
          · intro h
            injection h with h
            exact (cell_highlight_iff hl len c idx hgap hgood).mp h
          · intro h
            rw [(cell_highlight_iff hl len c idx hgap hgood).mpr h]
      | succ i =>
          rw [List.get?_cons_succ]
          have hgood' := advance_hl_good hl len c idx hgood.1
          have hih := ih (c + 1) _ hgood' i (by omega)
          rw [hih]
          constructor
          · rintro ⟨m, hm, h1, h2⟩; exact ⟨m, hm, by omega, by omega⟩
          · rintro ⟨m, hm, h1, h2⟩; exact ⟨m, hm, by omega, by omega⟩

/-- Claim C4, amended.  In the source the sweep cursor is advanced after
each cell is tested, not before, and the claimed equivalence (highlighted
iff covered by some match) only holds when consecutive matches are
separated by at least two free cells, `matches[i] + match_len + 2 ≤
matches[i+1]`, and the sweep starts at cell 0 with `hl_idx = 0`.
Unconditionally, a highlighted cell always lies inside some match (first
conjunct); under the gap condition the full equivalence holds for every
cell of the pass (second conjunct).  `c4_draw_sweep_counterexample` shows
the equivalence fails for adjacent matches as produced by the scan. -/
theorem c4_highlight_sweep (hl : List Nat) (len K : Nat)
    (hgap : List.Chain' (fun a b => a + len + 2 ≤ b) hl) :
    (∀ K0 idx c i, (draw_sweep hl len idx c K0).get? i = some true →
      ∃ m ∈ hl, m ≤ c + i ∧ c + i < m + len) ∧
    ∀ b < K, ((draw_sweep hl len 0 0 K).get? b = some true ↔
      ∃ m ∈ hl, m ≤ b ∧ b < m + len) := by
  haveI : IsTrans Nat fun a b => a + len + 2 ≤ b := ⟨fun a b c h1 h2 => by omega⟩
  have hpw : List.Pairwise (fun a b => a + len + 2 ≤ b) hl :=
    List.chain'_iff_pairwise.mp hgap
  refine ⟨fun K0 idx c i h => draw_sweep_sound hl len K0 idx c i h, fun b hb => ?_⟩
  have hgood : sweep_good hl len 0 0 := ⟨fun i hi => by omega, fun o _ => by omega⟩
  have hc := draw_sweep_complete hl len hpw K 0 0 hgood b hb
  simpa using hc

/-- Witness for C4: matches 0 and 4 of length 2 satisfy the gap condition,
and the theorem yields that cell 4 of a 6-cell pass is highlighted. -/
theorem c4_highlight_sweep_witness : (draw_sweep [0, 4] 2 0 0 6).get? 4 = some true :=
  ((c4_highlight_sweep [0, 4] 2 6 (by norm_num [List.chain'_cons])).2 4
    (by norm_num)).mpr ⟨4, by norm_num, by norm_num, by norm_num⟩

/-- Counterexample to C4 as stated: for the adjacent matches 0 and 2 of
length 2 (exactly what searching ABAB for AB produces), the cell at byte
index 2 lies inside the second match but the render pass draws it
unhighlighted, refuting the claimed equivalence. -/
theorem c4_draw_sweep_counterexample :
    ¬ (((draw_sweep [0, 2] 2 0 0 4).get? 2 = some true) ↔
      ∃ m ∈ [0, 2], m ≤ 2 ∧ 2 < m + 2) := by
  have h : draw_sweep [0, 2] 2 0 0 4 = [true, true, false, false] := by
    simp [draw_sweep, advance_hl, cell_highlight]
  rw [h]
  intro hiff
  have := hiff.mpr ⟨2, by norm_num, by norm_num, by norm_num⟩
  simp at this

/-- Claim C1 fails on the code (code bug): `move_cursor_offset` does not
clamp into `[0, N-1]` with `N == 0` treated as 0.  On an empty buffer the
source computes `(data.len() - 1) as i32`, a usize underflow (a panic under
debug assertions; `-1` under release semantics, as `len_pred_as_i32 0 = -1`
states), so even `move_cursor_offset(0)` lands on `cursor_x = -3`, byte
index `-1`, instead of pinning the cursor at offset 0.  Negative requested
offsets are not clamped up to 0 on a nonempty buffer either (`N = 10`,
offset `-5` yields byte index `-5`).  Finally, Arrow-Right on an empty
buffer is not a no-op: it moves `cursor_x` from 0 to 1.  Grid used: width
12 (4 bytes per line), height 5. -/
theorem c1_move_cursor_offset_failure :
    len_pred_as_i32 0 = -1 ∧
    (HexGrid.move_cursor_offset ⟨12, 5, [], 0, 0, 0⟩ 0).cursor_x = -3 ∧
    HexGrid.get_byte_idx (HexGrid.move_cursor_offset ⟨12, 5, [], 0, 0, 0⟩ 0) = -1 ∧
    HexGrid.get_byte_idx
      (HexGrid.move_cursor_offset ⟨12, 5, List.replicate 10 0, 0, 0, 0⟩ (-5)) = -5 ∧
    (HexGrid.keypressed ⟨12, 5, [], 0, 0, 0⟩ HexGrid.HKey.right).1.cursor_x = 1 := by
  refine ⟨by decide, by decide, by decide, by decide, by decide⟩

/-- Claim C3 fails on the code (code bug): the Goto overlay indeed accepts
only ASCII digits, but `Enter` runs `self.input.parse::<i32>().unwrap()`,
which panics when the digit string exceeds `i32::MAX`.  Pressing the digit
9 ten times and then Enter reaches the `unwrap` panic (`goto_run`
returns `none`), while nine nines still parse. -/
theorem c3_goto_parse_overflow :
    goto_run [] (List.replicate 10 (OKey.char 57) ++ [OKey.enter]) = none ∧
    goto_run [] (List.replicate 9 (OKey.char 57) ++ [OKey.enter]) =
      some (List.replicate 9 57, OverlayRet.ret 999999999) := by
  refine ⟨by decide, by decide⟩

/-- Claim C9 fails on the code (code bug): the key sequence Tab, hex digit
4, Tab, Backspace, Tab, Backspace from a freshly opened search overlay
first reaches a state with `nibble_cursor = LS` and `byte_cursor = 0 =
pattern.len()` (the ASCII Backspace arm pops the byte without resetting the
nibble cursor, breaking the claimed invariant), and the following hex
Backspace then indexes `buffer[0]` of the empty pattern, a panic
(`search_run` returns `none`). -/
theorem c9_search_backspace_panic :
    search_run (search_init []) [OKey.tab, OKey.char 52, OKey.tab, OKey.backspace] =
      some { mode := .ascii, buffer := [], byte_cursor := 0, nibble_cursor := .ls,
             contents := [] } ∧
    search_run (search_init [])
      [OKey.tab, OKey.char 52, OKey.tab, OKey.backspace, OKey.tab, OKey.backspace] =
      none := by
  refine ⟨by decide, by decide⟩

/-- Claim C10 fails on the code for key N (code bug): with an empty match
list, the n branch is a safe no-op (`repeat_next` finds no target), but the
N branch evaluates `hls.get(hls.len() - 1)` whose usize subtraction
underflows on the empty list — a panic under debug assertions, modelled by
`checked_pred 0 = none` and the outer `none` of `repeat_prev` (under
release semantics the wrapped index happens to make `get` return `None`,
a no-op by accident). -/
theorem c10_repeat_search_empty (cur : Nat) :
    repeat_next [] cur = none ∧
    checked_pred (List.length ([] : List Nat)) = none ∧
    repeat_prev [] cur = none := by
  refine ⟨rfl, rfl, rfl⟩

/-- Witness for C10 at the startup state: no search has run, the highlight
list is empty, and the current byte index is 0. -/
theorem c10_repeat_search_empty_witness :
    repeat_next [] 0 = none ∧
    checked_pred (List.length ([] : List Nat)) = none ∧
    repeat_prev [] 0 = none :=
  c10_repeat_search_empty 0

theorem len_pred_as_i32_eq (n : Nat) (h1 : 1 ≤ n) (h2 : (n : Int) < 2 ^ 31) :
    len_pred_as_i32 n = (n : Int) - 1 := by
  have hn : n < 2 ^ 31 := by exact_mod_cast h2
  simp only [len_pred_as_i32, usize_as_i32]
  have h3 : (n + (2 ^ 64 - 1)) % 2 ^ 64 % 2 ^ 32 = n - 1 := by omega
  rw [h3, if_pos (by omega)]
  omega

/-- Claim C5, amended: the margin policy of `move_cursor_offset` keeps the
cursor row inside the visible window, `scroll ≤ row ≤ scroll + height - 1`
with `row = offset / bytes_per_line`, for every buffer with at least one
byte, every prior cursor/scroll state with nonnegative scroll, every offset
in `[0, N-1]` — but only for viewports of height at least 4.  For height 3
the property fails (`c5_scroll_counterexample`): the branch that pulls
`scroll` down to `max(0, row - 3)` can leave the row below the window. -/
theorem c5_scroll_window (g : HexGrid) (o : Int)
    (hlen1 : 1 ≤ g.data.length)
    (hlen2 : (g.data.length : Int) < 2 ^ 31)
    (hbpl : 1 ≤ g.bytes_per_line)
    (hh : 4 ≤ g.height)
    (hs : 0 ≤ g.scroll)
    (ho1 : 0 ≤ o) (ho2 : o ≤ (g.data.length : Int) - 1) :
    (g.move_cursor_offset o).cursor_y = Int.tdiv o g.bytes_per_line ∧
    (g.move_cursor_offset o).scroll ≤ (g.move_cursor_offset o).cursor_y ∧
    (g.move_cursor_offset o).cursor_y ≤ (g.move_cursor_offset o).scroll + g.height - 1 := by
  have hb : min (len_pred_as_i32 g.data.length) o = o := by
    rw [len_pred_as_i32_eq _ hlen1 hlen2]
    exact min_eq_right ho2
  have hcy : (g.move_cursor_offset o).cursor_y = Int.tdiv o g.bytes_per_line := by
    simp only [HexGrid.move_cursor_offset, hb]
  have hcy0 : 0 ≤ Int.tdiv o g.bytes_per_line := Int.tdiv_nonneg ho1 (by omega)
  have hscroll : (g.move_cursor_offset o).scroll =
      (if g.scroll > max 0 (Int.tdiv o g.bytes_per_line - 3) then
        max 0 (Int.tdiv o g.bytes_per_line - 3)
      else if g.scroll < max 0 (Int.tdiv o g.bytes_per_line - g.height + 3) then
        max 0 (Int.tdiv o g.bytes_per_line - g.height + 3)
      else g.scroll) := by
    simp only [HexGrid.move_cursor_offset, hb]
  refine ⟨hcy, ?_, ?_⟩ <;> rw [hcy, hscroll] <;> split_ifs <;> omega

/-- Counterexample to C5 as stated: with height 3 (width 12, 4 bytes per
line, buffer of 13 bytes, prior scroll 1), jumping to offset 12 puts the
cursor on row 3 with scroll 0, outside the 3-row window rooted at the
scroll. -/
theorem c5_scroll_counterexample :
    (HexGrid.move_cursor_offset ⟨12, 3, List.replicate 13 0, 0, 0, 1⟩ 12).cursor_y = 3 ∧
    (HexGrid.move_cursor_offset ⟨12, 3, List.replicate 13 0, 0, 0, 1⟩ 12).scroll = 0 ∧
    ¬ ((HexGrid.move_cursor_offset ⟨12, 3, List.replicate 13 0, 0, 0, 1⟩ 12).cursor_y ≤
      (HexGrid.move_cursor_offset ⟨12, 3, List.replicate 13 0, 0, 0, 1⟩ 12).scroll + 3 - 1) := by
  refine ⟨by decide, by decide, by decide⟩

/-- Witness for C5 at a concrete input: height 4, 13-byte buffer, offset
12, prior scroll 1. -/
theorem c5_scroll_window_witness :
    (HexGrid.move_cursor_offset ⟨12, 4, List.replicate 13 0, 0, 0, 1⟩ 12).cursor_y =
      Int.tdiv 12 (HexGrid.bytes_per_line ⟨12, 4, List.replicate 13 0, 0, 0, 1⟩) ∧
    (HexGrid.move_cursor_offset ⟨12, 4, List.replicate 13 0, 0, 0, 1⟩ 12).scroll ≤
      (HexGrid.move_cursor_offset ⟨12, 4, List.replicate 13 0, 0, 0, 1⟩ 12).cursor_y ∧
    (HexGrid.move_cursor_offset ⟨12, 4, List.replicate 13 0, 0, 0, 1⟩ 12).cursor_y ≤
      (HexGrid.move_cursor_offset ⟨12, 4, List.replicate 13 0, 0, 0, 1⟩ 12).scroll + 4 - 1 :=
  c5_scroll_window ⟨12, 4, List.replicate 13 0, 0, 0, 1⟩ 12 (by decide) (by decide)
    (by decide) (by decide) (by decide) (by decide) (by decide)

/-- Claim C6, amended: on a state satisfying the cursor invariants (column
nonnegative and its byte within the row, row nonnegative, byte index inside
the buffer), `move_cursor_offset (get_byte_idx())` restores the same row
and the same byte index, but snaps the column to the first hex digit of its
byte, `3 * (cursor_x / 3)`; the column itself is therefore restored exactly
iff the cursor sits on the first digit of a byte.  Reachable states with
the cursor on the second digit (`c6_roundtrip_counterexample`) are not
restored exactly, refuting the claim as stated. -/
theorem c6_roundtrip (g : HexGrid)
    (hbpl : 1 ≤ g.bytes_per_line)
    (hx : 0 ≤ g.cursor_x)
    (hxlt : Int.tdiv g.cursor_x 3 < g.bytes_per_line)
    (hy : 0 ≤ g.cursor_y)
    (hlen2 : (g.data.length : Int) < 2 ^ 31)
    (hidx : g.get_byte_idx ≤ (g.data.length : Int) - 1) :
    (g.move_cursor_offset g.get_byte_idx).cursor_y = g.cursor_y ∧
    (g.move_cursor_offset g.get_byte_idx).cursor_x = 3 * Int.tdiv g.cursor_x 3 ∧
    HexGrid.get_byte_idx (g.move_cursor_offset g.get_byte_idx) = g.get_byte_idx := by
  set q := Int.tdiv g.cursor_x 3 with hqdef
  have hq0 : 0 ≤ q := Int.tdiv_nonneg hx (by norm_num)
  have hgb : g.get_byte_idx = g.cursor_y * g.bytes_per_line + q := by
    rw [hqdef]; rfl
  have hmul0 : 0 ≤ g.cursor_y * g.bytes_per_line :=
    mul_nonneg hy (by omega)
  have hidx0 : 0 ≤ g.get_byte_idx := by rw [hgb]; omega
  have hlen1 : 1 ≤ g.data.length := by omega
  have hb : min (len_pred_as_i32 g.data.length) g.get_byte_idx = g.get_byte_idx := by
    rw [len_pred_as_i32_eq _ hlen1 hlen2]
    exact min_eq_right hidx
  have hform : g.get_byte_idx = q + g.cursor_y * g.bytes_per_line := by
    rw [hgb]; ring
  have hsum0 : 0 ≤ q + g.cursor_y * g.bytes_per_line := by omega
  have hcy : (g.move_cursor_offset g.get_byte_idx).cursor_y = g.cursor_y := by
    simp only [HexGrid.move_cursor_offset, hb]
    rw [hform, Int.tdiv_eq_ediv hsum0 (by omega),
      Int.add_mul_ediv_right q g.cursor_y (by omega : g.bytes_per_line ≠ 0),
      Int.ediv_eq_zero_of_lt hq0 hxlt]
    omega
  have hcx : (g.move_cursor_offset g.get_byte_idx).cursor_x = 3 * q := by
    simp only [HexGrid.move_cursor_offset, hb]
    rw [hform, Int.tmod_eq_emod hsum0 (by omega), Int.add_mul_emod_self,
      Int.emod_eq_of_lt hq0 hxlt]
    ring
  refine ⟨hcy, hcx, ?_⟩
  show (g.move_cursor_offset g.get_byte_idx).cursor_y *
      (g.move_cursor_offset g.get_byte_idx).bytes_per_line +
      Int.tdiv (g.move_cursor_offset g.get_byte_idx).cursor_x 3 = g.get_byte_idx
  have hbpl2 : (g.move_cursor_offset g.get_byte_idx).bytes_per_line = g.bytes_per_line := rfl
  rw [hcy, hcx, hbpl2]
  have h3 : Int.tdiv (3 * q) 3 = q := by
    rw [Int.tdiv_eq_ediv (by omega) (by norm_num), mul_comm,
      Int.mul_ediv_cancel q (by norm_num)]
  rw [h3, hgb]

/-- Counterexample to C6 as stated: on a 2-byte buffer with width 12,
pressing Arrow-Right from the initial state is a reachable movement that
puts the cursor on the second hex digit of byte 0 (`cursor_x = 1`); the
round trip through `move_cursor_offset (get_byte_idx())` then returns
`cursor_x = 0`, a different column. -/
theorem c6_roundtrip_counterexample :
    (HexGrid.keypressed ⟨12, 5, [0, 0], 0, 0, 0⟩ HexGrid.HKey.right).1.cursor_x = 1 ∧
    (HexGrid.move_cursor_offset
      ((HexGrid.keypressed ⟨12, 5, [0, 0], 0, 0, 0⟩ HexGrid.HKey.right).1)
      (HexGrid.get_byte_idx
        ((HexGrid.keypressed ⟨12, 5, [0, 0], 0, 0, 0⟩ HexGrid.HKey.right).1))).cursor_x = 0 := by
  refine ⟨by decide, by decide⟩

/-- Witness for C6 at a concrete state: cursor on the first digit of byte 1
(column 3) of a 2-byte buffer. -/
theorem c6_roundtrip_witness :
    (HexGrid.move_cursor_offset ⟨12, 5, [0, 0], 3, 0, 0⟩
      (HexGrid.get_byte_idx ⟨12, 5, [0, 0], 3, 0, 0⟩)).cursor_y = 0 ∧
    (HexGrid.move_cursor_offset ⟨12, 5, [0, 0], 3, 0, 0⟩
      (HexGrid.get_byte_idx ⟨12, 5, [0, 0], 3, 0, 0⟩)).cursor_x =
      3 * Int.tdiv 3 3 ∧
    HexGrid.get_byte_idx (HexGrid.move_cursor_offset ⟨12, 5, [0, 0], 3, 0, 0⟩
      (HexGrid.get_byte_idx ⟨12, 5, [0, 0], 3, 0, 0⟩)) =
      HexGrid.get_byte_idx ⟨12, 5, [0, 0], 3, 0, 0⟩ :=
  c6_roundtrip ⟨12, 5, [0, 0], 3, 0, 0⟩ (by decide) (by decide) (by decide) (by decide)
    (by decide) (by decide)

/-- Claim C7: in hex-mode pattern entry a hex digit fills the active nibble
of the byte at `byte_cursor`.  When `byte_cursor` equals the pattern length
a new byte holding the digit in its high nibble is pushed and the nibble
cursor moves to the less significant nibble without advancing
`byte_cursor`; filling the most-significant nibble of an existing byte
likewise moves to the less significant nibble of the same byte; filling the
least-significant nibble commits the byte, advances `byte_cursor` and
resets the nibble cursor.  In particular typing the digits 4 then 1 into an
empty hex-mode buffer yields pattern `[0x41]`, `byte_cursor = 1`,
`nibble_cursor` most significant. -/

theorem c7_hex_digit_entry (s : SearchOverlay) (c v : Nat)
    (hmode : s.mode = .hex)
    (hv : hex_digit_val c = some v)
    (hcur : s.byte_cursor ≤ s.buffer.length) :
    (s.nibble_cursor = .ms → s.byte_cursor = s.buffer.length →
      search_keypressed s (.char c) =
        some ({ s with
                buffer := s.buffer ++ [Nat.shiftLeft v 4],
                nibble_cursor := .ls }, .cont)) ∧
    (s.nibble_cursor = .ms → s.byte_cursor < s.buffer.length →
      search_keypressed s (.char c) =
        some ({ s with
                buffer := s.buffer.set s.byte_cursor
                  (Nat.lor (Nat.land (s.buffer.getD s.byte_cursor 0) 0x0F)
                    (Nat.shiftLeft v 4)),
                nibble_cursor := .ls }, .cont)) ∧
    (s.nibble_cursor = .ls → s.byte_cursor < s.buffer.length →
      search_keypressed s (.char c) =
        some ({ s with
                buffer := s.buffer.set s.byte_cursor
                  (Nat.lor (Nat.land (s.buffer.getD s.byte_cursor 0) 0xF0) v),
                nibble_cursor := .ms, byte_cursor := s.byte_cursor + 1 }, .cont)) ∧
    search_run ⟨.hex, [], 0, .ms, []⟩ [OKey.char 52, OKey.char 49] =
      some ⟨.hex, [0x41], 1, .ms, []⟩ := by
  obtain ⟨mo, buf, bc, nc, cont⟩ := s
  simp only at hmode hcur
  subst hmode
  refine ⟨?_, ?_, ?_, by decide⟩
  · intro hnc hbc
    simp only at hnc hbc
    subst hnc
    simp only [search_keypressed, hv]
    rw [if_pos (by simp; omega)]
    have hz : Nat.lor (Nat.land 0 0x0F) (Nat.shiftLeft v 4) = Nat.shiftLeft v 4 := by
      rw [show Nat.land 0 0x0F = 0 from rfl]
      exact Nat.zero_or _
    simp [hbc]
    exact hz
  · intro hnc hbc
    simp only at hnc hbc
    subst hnc
    simp only [search_keypressed, hv]
    rw [if_neg (by simp; omega)]
    simp only [if_neg (by simp; omega : ¬ bc ≥ buf.length)]
  · intro hnc hbc
    simp only at hnc hbc
    subst hnc
    simp only [search_keypressed, hv]
    rw [if_neg (by simp; omega)]
    simp only [if_neg (by simp; omega : ¬ bc ≥ buf.length)]

/-- Witness for C7: the less-significant-nibble case at the state reached
after typing 4, completed by the digit 1. -/
theorem c7_hex_digit_entry_witness :
    hex_digit_val 49 = some 1 ∧
    search_keypressed ⟨.hex, [0x40], 0, .ls, []⟩ (.char 49) =
      some (⟨.hex, [0x41], 1, .ms, []⟩, .cont) := by
  refine ⟨by decide, ?_⟩
  have h := (c7_hex_digit_entry ⟨.hex, [0x40], 0, .ls, []⟩ 49 1 rfl (by decide)
    (by decide)).2.2.1 rfl (by decide)
  rw [h]
  decide

theorem sorted_find_gt_min (c : Nat) :
    ∀ (l : List Nat), List.Chain' (· < ·) l →
      ∀ t, l.find? (fun o => decide (c < o)) = some t →
        ∀ m ∈ l, c < m → t ≤ m := by
  intro l
  induction l with
  | nil => simp
  | cons a l ih =>
      intro hch t hfind m hm hcm
      have hpw : List.Pairwise (· < ·) (a :: l) := List.chain'_iff_pairwise.mp hch
      by_cases hca : c < a
      · rw [List.find?_cons_of_pos _ (by simpa using hca)] at hfind
        injection hfind with hfind
        subst hfind
        rcases List.mem_cons.mp hm with rfl | hm
        · exact le_refl m
        · exact le_of_lt (List.rel_of_pairwise_cons hpw hm)
      · rw [List.find?_cons_of_neg _ (by simpa using hca)] at hfind
        rcases List.mem_cons.mp hm with rfl | hm
        · exact absurd hcm hca
        · exact ih hch.tail t hfind m hm hcm

theorem sorted_find_lt_max (c : Nat) :
    ∀ (l : List Nat), List.Chain' (· > ·) l →
      ∀ t, l.find? (fun o => decide (o < c)) = some t →
        ∀ m ∈ l, m < c → m ≤ t := by
  intro l
  induction l with
  | nil => simp
  | cons a l ih =>
      intro hch t hfind m hm hcm
      have hpw : List.Pairwise (· > ·) (a :: l) := List.chain'_iff_pairwise.mp hch
      by_cases hca : a < c
      · rw [List.find?_cons_of_pos _ (by simpa using hca)] at hfind
        injection hfind with hfind
        subst hfind
        rcases List.mem_cons.mp hm with rfl | hm
        · exact le_refl m
        · exact le_of_lt (List.rel_of_pairwise_cons hpw hm)
      · rw [List.find?_cons_of_neg _ (by simpa using hca)] at hfind
        rcases List.mem_cons.mp hm with rfl | hm
        · exact absurd hcm hca
        · exact ih hch.tail t hfind m hm hcm

/-- Claim C8: with a non-empty ascending match list, key n selects the
first entry strictly greater than the current byte offset (that is, a
greater entry that is least among the greater ones), wrapping to the first
entry when none exists; key N selects the last entry strictly less than the
offset (a smaller entry that is greatest among the smaller ones), wrapping
to the last entry when none exists; both jumps then go through
`move_cursor_offset`. -/
theorem c8_repeat_search (hls : List Nat) (cur : Nat) (hne : hls ≠ [])
    (hsort : List.Chain' (· < ·) hls) :
    ((∃ m ∈ hls, cur < m) → ∃ t, repeat_next hls cur = some t ∧ t ∈ hls ∧ cur < t ∧
      ∀ m ∈ hls, cur < m → t ≤ m) ∧
    ((∀ m ∈ hls, m ≤ cur) → repeat_next hls cur = some (hls.head hne)) ∧
    ((∃ m ∈ hls, m < cur) → ∃ t, repeat_prev hls cur = some (some t) ∧ t ∈ hls ∧ t < cur ∧
      ∀ m ∈ hls, m < cur → m ≤ t) ∧
    ((∀ m ∈ hls, cur ≤ m) → repeat_prev hls cur = some (some (hls.getLast hne))) := by
  have hsortr : List.Chain' (· > ·) hls.reverse := by
    rw [List.chain'_reverse]
    exact hsort
  refine ⟨?_, ?_, ?_, ?_⟩
  · rintro ⟨m, hm, hcm⟩
    have hsome : (hls.find? fun o => decide (cur < o)).isSome :=
      List.find?_isSome.mpr ⟨m, hm, by simpa using hcm⟩
    obtain ⟨t, hfind⟩ := Option.isSome_iff_exists.mp hsome
    refine ⟨t, ?_, List.mem_of_find?_eq_some hfind, ?_, ?_⟩
    · simp only [repeat_next, hfind]
    · simpa using List.find?_some hfind
    · exact sorted_find_gt_min cur hls hsort t hfind
  · intro hall
    have hnone : hls.find? (fun o => decide (cur < o)) = none :=
      List.find?_eq_none.mpr fun x hx => by simpa using Nat.not_lt.mpr (hall x hx)
    simp only [repeat_next, hnone]
    cases hls with
    | nil => exact absurd rfl hne
    | cons a l => rfl
  · rintro ⟨m, hm, hcm⟩
    have hsome : (hls.reverse.find? fun o => decide (o < cur)).isSome :=
      List.find?_isSome.mpr ⟨m, List.mem_reverse.mpr hm, by simpa using hcm⟩
    obtain ⟨t, hfind⟩ := Option.isSome_iff_exists.mp hsome
    refine ⟨t, ?_, ?_, ?_, ?_⟩
    · simp only [repeat_prev, hfind]
    · exact List.mem_reverse.mp (List.mem_of_find?_eq_some hfind)
    · simpa using List.find?_some hfind
    · intro x hx hxc
      exact sorted_find_lt_max cur hls.reverse hsortr t hfind x
        (List.mem_reverse.mpr hx) hxc
  · intro hall
    have hnone : hls.reverse.find? (fun o => decide (o < cur)) = none :=
      List.find?_eq_none.mpr fun x hx => by
        simpa using Nat.not_lt.mpr (hall x (List.mem_reverse.mp hx))
    have hlen0 : hls.length ≠ 0 := by
      simpa using fun h => hne (List.length_eq_zero.mp h)
    simp only [repeat_prev, hnone, checked_pred, if_neg hlen0]
    rw [List.get?_eq_get (by omega), List.getLast_eq_getElem]
    rfl

/-- Witness for C8 with matches 2 and 5 and current offset 3: key n selects
5 and key N selects 2. -/
theorem c8_repeat_search_witness :
    (∃ t, repeat_next [2, 5] 3 = some t ∧ t ∈ [2, 5] ∧ 3 < t ∧
      ∀ m ∈ [2, 5], 3 < m → t ≤ m) ∧
    (∃ t, repeat_prev [2, 5] 3 = some (some t) ∧ t ∈ [2, 5] ∧ t < 3 ∧
      ∀ m ∈ [2, 5], m < 3 → m ≤ t) := by
  have h := c8_repeat_search [2, 5] 3 (by decide) (by norm_num [List.chain'_cons])
  exact ⟨h.1 ⟨5, by norm_num, by norm_num⟩, h.2.2.1 ⟨2, by norm_num, by norm_num⟩⟩
